import Mathlib

/-!
Shallow embedding of `src/plutus/evaluation/performance.py`.

Python `Decimal` values are modelled as exact rationals (`ℚ`).  The two
square roots the code takes (`annualized_factor ** Decimal(1/2)` and the
standard deviations) are irrational in general, so the Sharpe and Sortino
results are kept in symbolic form: a constructor carrying the exact rational
data that determines the real value (see `SharpeVal` / `SortinoVal`).
`math.pow` is likewise kept symbolic as its `(base, exponent)` request pair,
together with an exact model of its domain-error condition; `math.sqrt`-like
calls are modelled as exact square roots (`sqrt x = 0` iff `x = 0` for
`x ≥ 0`, which matches float `pow(x, 0.5)` on the branch conditions).

Python exceptions raised during `PerformanceHistory.__init__` are modelled
with `Except PyError`: `decimal` division by zero (the `annualized_factor /
len(performances)` exponent when the series is empty, and the division by a
zero sample standard deviation in the Sharpe ratio) and the `math.pow`
domain error (negative base with non-integral exponent).
-/

deriving instance DecidableEq for Except

namespace Plutus

/-- Errors observable while building a `PerformanceHistory`.
`invalidInput` is the validation error named by the specification's error
taxonomy; the code never raises it, it is present so that statements about
the specified behaviour can be written down. -/
inductive PyError where
  | invalidInput
  | divisionByZero
  | powValueError
deriving DecidableEq, Repr

/-- `Performance`: a period record exposing an absolute return
(`performance.py`, class `Performance`). -/
structure Performance where
  absolute_return : ℚ
deriving DecidableEq, Repr

/-- Sharpe-ratio result.  `val af excess variance` denotes the real number
`sqrt af * excess / sqrt variance`: the code computes
`Decimal(annualized_factor ** Decimal(1/2)) * (mean - rf/af) / stdev(returns)`
and `stdev returns = sqrt variance`.  The rational triple determines the
reported value exactly. -/
inductive SharpeVal where
  | zero
  | val (af excess variance : ℚ)
deriving DecidableEq, Repr

/-- Sortino-ratio result.  `val af excess downside` denotes
`sqrt af * excess / sqrt downside`; `inf` is the `Decimal('Inf')` sentinel. -/
inductive SortinoVal where
  | zero
  | inf
  | val (af excess downside : ℚ)
deriving DecidableEq, Repr

/-- `statistics.mean` on exact decimals. -/
def list_mean (l : List ℚ) : ℚ :=
  l.sum / l.length

/-- The square of `statistics.stdev` (sample variance, Bessel `N - 1`
divisor) on exact decimals. -/
def sample_variance (l : List ℚ) : ℚ :=
  (l.map (fun r => (r - list_mean l) ^ 2)).sum / ((l.length : ℚ) - 1)

/-- `PerformanceHistory._get_sharpe_ratio`.  The local constant
`risk_free_return = Decimal('0.03')` is hardcoded in the method.  When the
series is non-degenerate but has zero sample variance (all returns equal and
non-zero) the Python `Decimal` division by `stdev(returns) = 0` raises. -/
def get_sharpe_ratio (performances : List Performance) (annualized_factor : ℚ) :
    Except PyError SharpeVal :=
  let returns := performances.map Performance.absolute_return
  if returns.length ≤ 1 ∨ ∀ r ∈ returns, r = 0 then
    Except.ok SharpeVal.zero
  else if sample_variance returns = 0 then
    Except.error PyError.divisionByZero
  else
    Except.ok (SharpeVal.val annualized_factor
      (list_mean returns - (3 / 100) / annualized_factor)
      (sample_variance returns))

/-- `sum(min(Decimal(0), r - mar/annualized_factor)**2 for r in returns)`. -/
def downside_sum (returns : List ℚ) (threshold : ℚ) : ℚ :=
  (returns.map (fun r => (min 0 (r - threshold)) ^ 2)).sum

/-- `PerformanceHistory._get_sortino_ratio`.  The code's
`target_semi_deviation` is the square root of
`downside_sum returns (mar/af) / len(returns)`; it is positive iff that
radicand is positive, which is how the branch is modelled.  The division by
`target_semi_deviation` is guarded by the positivity test, so the method
never raises. -/
def get_sortino_ratio (performances : List Performance) (mar annualized_factor : ℚ) :
    SortinoVal :=
  let returns := performances.map Performance.absolute_return
  if returns.length ≤ 1 ∨ ∀ r ∈ returns, r = 0 then
    SortinoVal.zero
  else
    let threshold := mar / annualized_factor
    let downside_mean_square := downside_sum returns threshold / returns.length
    if 0 < downside_mean_square then
      SortinoVal.val annualized_factor (list_mean returns - threshold) downside_mean_square
    else
      SortinoVal.inf

/-- The loop of `_get_cumulative_performance`: repeatedly append
`last * (1 + r)`. -/
def cumulative_from (prev : ℚ) : List Performance → List ℚ
  | [] => []
  | p :: ps => prev * (1 + p.absolute_return) :: cumulative_from (prev * (1 + p.absolute_return)) ps

/-- `PerformanceHistory._get_cumulative_performance`: starts at
`Decimal('1')` and compounds. -/
def get_cumulative_performance (performances : List Performance) : List ℚ :=
  1 :: cumulative_from 1 performances

/-- Running maxima with a carried accumulator (the tail of the code's
`max_performance` list comprehension `max(cum[:i + 1])`). -/
def running_max (m : ℚ) : List ℚ → List ℚ
  | [] => []
  | c :: cs => max m c :: running_max (max m c) cs

/-- `max_performance[i] = max(cumulative_performance[:i + 1])`. -/
def max_performance_list (cum : List ℚ) : List ℚ :=
  match cum with
  | [] => []
  | c :: cs => c :: running_max c cs

/-- The drawdown series `dd[i] = (cum[i] - max_performance[i]) / max_performance[i]`. -/
def drawdown_list (cum : List ℚ) : List ℚ :=
  List.zipWith (fun c m => (c - m) / m) cum (max_performance_list cum)

/-- `PerformanceHistory._get_maximum_drawdown`: `min(dd)`.  The `[]` case is
unreachable on paths produced by `get_cumulative_performance`, which always
start with `1` (Python `min` would raise on an empty list). -/
def get_maximum_drawdown (cum : List ℚ) : ℚ :=
  match drawdown_list cum with
  | [] => 0
  | d :: ds => ds.foldl min d

/-- Exact model of the domain-error condition of float `math.pow`:
a negative base with a non-integral exponent, or a zero base with a negative
exponent, raises `ValueError`. -/
def math_pow_raises (base exponent : ℚ) : Bool :=
  (decide (base < 0) && decide (exponent.den ≠ 1)) ||
    (decide (base = 0) && decide (exponent < 0))

/-- `PerformanceHistory._get_annual_return` computes
`Decimal(math.pow(cumulative_performance[-1], annualized_factor / len(performances))) - 1`.
The `math.pow` request is kept symbolic as its `(base, exponent)` pair, so the
returned value denotes `base ^ exponent - 1`.  An empty series raises the
`decimal` division-by-zero from the exponent `annualized_factor / 0`. -/
def get_annual_return (cum : List ℚ) (n_periods : ℕ) (annualized_factor : ℚ) :
    Except PyError (ℚ × ℚ) :=
  if n_periods = 0 then
    Except.error PyError.divisionByZero
  else
    let exponent := annualized_factor / (n_periods : ℚ)
    let base := cum.getLastD 1
    if math_pow_raises base exponent then
      Except.error PyError.powValueError
    else
      Except.ok (base, exponent)

/-- Mutable state of the `_get_longest_drawdown` loop. -/
structure DrawdownScanState where
  longest_drawdown : ℕ
  max_performance : ℚ
  max_performance_index : ℕ
  min_performance : ℚ
deriving DecidableEq, Repr

/-- One iteration of the `_get_longest_drawdown` loop body at index `i` with
`c = cumulative_performance[i]`. -/
def drawdown_step (i : ℕ) (c : ℚ) (s : DrawdownScanState) : DrawdownScanState :=
  if s.max_performance < c then
    { longest_drawdown := s.longest_drawdown
      max_performance := c
      max_performance_index := i
      min_performance := c }
  else if c < s.min_performance then
    { s with
      min_performance := c
      longest_drawdown := max s.longest_drawdown (i - s.max_performance_index) }
  else
    s

/-- The `for i in range(1, len(cumulative_performance))` loop, fed the list
elements from index `i` on. -/
def drawdown_scan (s : DrawdownScanState) (i : ℕ) : List ℚ → DrawdownScanState
  | [] => s
  | c :: cs => drawdown_scan (drawdown_step i c s) (i + 1) cs

/-- `PerformanceHistory._get_longest_drawdown`: the scan starts from the
hardcoded state `longest_drawdown = 0`, `max_performance = 1`,
`max_performance_index = 0`, `min_performance = 1` and walks
`cumulative_performance[1:]`. -/
def get_longest_drawdown (cum : List ℚ) : ℕ :=
  (drawdown_scan
    { longest_drawdown := 0
      max_performance := 1
      max_performance_index := 0
      min_performance := 1 } 1 cum.tail).longest_drawdown

/-- The report object built by `PerformanceHistory.__init__`.  `dates` is
stored untouched; its element type is arbitrary. -/
structure PerformanceHistory (α : Type) where
  dates : List α
  performances : List Performance
  n_periods : ℕ
  annualized_factor : ℚ
  sharpe_ratio : SharpeVal
  sortino_ratio : SortinoVal
  cumulative_performance : List ℚ
  maximum_drawdown : ℚ
  annual_return : ℚ × ℚ
  longest_drawdown : ℕ
deriving DecidableEq, Repr

/-- `PerformanceHistory.__init__`: eagerly computes every metric.  In the
source the fields are assigned in the order sharpe, sortino, cumulative,
maximum drawdown, annual return, longest drawdown; the only fallible steps
are the Sharpe ratio (division by a zero standard deviation) and the annual
return (empty series, or a `math.pow` domain error), and the Sharpe step runs
first, which the match order below reproduces.  `mar = Decimal('0.07')` is
hardcoded at the `_get_sortino_ratio` call site. -/
def mk_performance_history {α : Type} (dates : List α)
    (performances : List Performance) (annualized_factor : ℚ) :
    Except PyError (PerformanceHistory α) :=
  let cum := get_cumulative_performance performances
  match get_sharpe_ratio performances annualized_factor with
  | Except.error e => Except.error e
  | Except.ok sharpe =>
    match get_annual_return cum performances.length annualized_factor with
    | Except.error e => Except.error e
    | Except.ok annual =>
      Except.ok
        { dates := dates
          performances := performances
          n_periods := performances.length
          annualized_factor := annualized_factor
          sharpe_ratio := sharpe
          sortino_ratio := get_sortino_ratio performances (7 / 100) annualized_factor
          cumulative_performance := cum
          maximum_drawdown := get_maximum_drawdown cum
          annual_return := annual
          longest_drawdown := get_longest_drawdown cum }

/-- The computed (non-`dates`) output fields of a report, bundled for
comparison. -/
def report_metrics {α : Type} (h : PerformanceHistory α) :
    SharpeVal × SortinoVal × List ℚ × ℚ × (ℚ × ℚ) × ℕ :=
  (h.sharpe_ratio, h.sortino_ratio, h.cumulative_performance,
    h.maximum_drawdown, h.annual_return, h.longest_drawdown)

/-- Sharpe-ratio formula exactly as the specification words it, with a
caller-supplied `risk_free_return`:
`sqrt(annualized_factor) * (mean(returns) - risk_free_return / annualized_factor) / stdev(returns)`
(the non-degenerate case; `stdev` is the Bessel-corrected sample standard
deviation, so the symbolic `SharpeVal.val` carries the sample variance). -/
def sharpe_ratio_spec (returns : List ℚ) (annualized_factor risk_free_return : ℚ) :
    SharpeVal :=
  SharpeVal.val annualized_factor
    (list_mean returns - risk_free_return / annualized_factor)
    (sample_variance returns)

/-- The reference longest-drawdown scan exactly as the specification words
it (section 4.2): state `longest`, `running_peak`, `running_peak_index`,
`trough_since_peak`; a strict new all-time high resets the peak state, a
value strictly below the current trough updates the trough and the duration,
anything else changes nothing. -/
def longest_drawdown_scan_spec (longest : ℕ) (running_peak : ℚ)
    (running_peak_index : ℕ) (trough_since_peak : ℚ) (i : ℕ) : List ℚ → ℕ
  | [] => longest
  | c :: cs =>
    if running_peak < c then
      longest_drawdown_scan_spec longest c i c (i + 1) cs
    else if c < trough_since_peak then
      longest_drawdown_scan_spec (max longest (i - running_peak_index))
        running_peak running_peak_index c (i + 1) cs
    else
      longest_drawdown_scan_spec longest running_peak running_peak_index
        trough_since_peak (i + 1) cs

/-- The specification's longest-drawdown computation: the scan starts from
`running_peak = cum[0]` at index `0` (with the trough equal to the peak) and
walks the indices `i ≥ 1`. -/
def longest_drawdown_spec (cum : List ℚ) : ℕ :=
  match cum with
  | [] => 0
  | c :: cs => longest_drawdown_scan_spec 0 c 0 c 1 cs

/-- The specification's drawdown at index `i`:
`(cum[i] - peak[i]) / peak[i]` with `peak[i] = max(cum[0..i])`. -/
def drawdown_at (cum : List ℚ) (i : ℕ) : ℚ :=
  (cum.getD i 0 - ((cum.take (i + 1)).max?).getD 0) / ((cum.take (i + 1)).max?).getD 0

theorem cumulative_from_length (ps : List Performance) :
    ∀ prev : ℚ, (cumulative_from prev ps).length = ps.length := by
  induction ps with
  | nil => intro prev; rfl
  | cons p ps ih => intro prev; simp [cumulative_from, ih]

theorem cumulative_from_getD (ps : List Performance) :
    ∀ (prev : ℚ) (i : ℕ), i < ps.length →
      (prev :: cumulative_from prev ps).getD (i + 1) 0 =
        (prev :: cumulative_from prev ps).getD i 0 *
          (1 + (ps.getD i ⟨0⟩).absolute_return) := by
  induction ps with
  | nil => intro prev i hi; cases hi
  | cons p ps ih =>
    intro prev i hi
    cases i with
    | zero => simp [cumulative_from, List.getD]
    | succ j =>
      have hj : j < ps.length := by simpa using hi
      have h := ih (prev * (1 + p.absolute_return)) j hj
      simpa [cumulative_from, List.getD] using h

/-- Claim C9: for every return series, the cumulative performance path has
length `N + 1`, its first entry is exactly `1`, and each subsequent entry is
the previous one multiplied by `1 + r_i`. -/
theorem cumulative_performance_invariants (performances : List Performance) :
    (get_cumulative_performance performances).length = performances.length + 1 ∧
    (get_cumulative_performance performances).getD 0 0 = 1 ∧
    ∀ i, i < performances.length →
      (get_cumulative_performance performances).getD (i + 1) 0 =
        (get_cumulative_performance performances).getD i 0 *
          (1 + (performances.getD i ⟨0⟩).absolute_return) := by
  refine ⟨?_, rfl, ?_⟩
  · simp [get_cumulative_performance, cumulative_from_length]
  · intro i hi
    exact cumulative_from_getD performances 1 i hi

/-- Witness for C9 at the concrete series `[0.1, -0.05]`. -/
theorem cumulative_performance_invariants_witness :
    (get_cumulative_performance [⟨1/10⟩, ⟨-1/20⟩]).length = 3 ∧
    (get_cumulative_performance [⟨1/10⟩, ⟨-1/20⟩]).getD 0 0 = 1 ∧
    (get_cumulative_performance [⟨1/10⟩, ⟨-1/20⟩]).getD 2 0 =
      (get_cumulative_performance [⟨1/10⟩, ⟨-1/20⟩]).getD 1 0 * (1 + (-1/20)) := by
  obtain ⟨h1, h2, h3⟩ := cumulative_performance_invariants [⟨1/10⟩, ⟨-1/20⟩]
  refine ⟨h1, h2, ?_⟩
  have h := h3 1 (by norm_num)
  simpa [List.getD] using h

theorem drawdown_scan_eq_spec_scan (cs : List ℚ) :
    ∀ (lg : ℕ) (mp : ℚ) (mpi : ℕ) (mn : ℚ) (i : ℕ),
      (drawdown_scan ⟨lg, mp, mpi, mn⟩ i cs).longest_drawdown =
        longest_drawdown_scan_spec lg mp mpi mn i cs := by
  induction cs with
  | nil => intro lg mp mpi mn i; rfl
  | cons c cs ih =>
    intro lg mp mpi mn i
    by_cases h1 : mp < c
    · simp only [drawdown_scan, drawdown_step, longest_drawdown_scan_spec, if_pos h1]
      exact ih lg c i c (i + 1)
    · by_cases h2 : c < mn
      · simp only [drawdown_scan, drawdown_step, longest_drawdown_scan_spec,
          if_neg h1, if_pos h2]
        exact ih (max lg (i - mpi)) mp mpi c (i + 1)
      · simp only [drawdown_scan, drawdown_step, longest_drawdown_scan_spec,
          if_neg h1, if_neg h2]
        exact ih lg mp mpi mn (i + 1)

/-- Claim C7: on every cumulative value path starting at `1`, the
implementation's longest-drawdown scan (hardcoded initial peak and trough
`1` at index `0`) computes exactly the specification's reference one-pass
scan (initial peak and trough `cum[0]` at index `0`). -/
theorem longest_drawdown_refines_spec (cum : List ℚ) (h : cum.head? = some 1) :
    get_longest_drawdown cum = longest_drawdown_spec cum := by
  cases cum with
  | nil => cases h
  | cons c cs =>
    have hc : c = 1 := by simpa using h
    subst hc
    simpa [get_longest_drawdown, longest_drawdown_spec] using
      drawdown_scan_eq_spec_scan cs 0 1 0 1 1

/-- Witness for C7 on the Scenario B cumulative path. -/
theorem longest_drawdown_refines_spec_witness :
    get_longest_drawdown [1, 11/10, 209/200, 2299/2000] =
      longest_drawdown_spec [1, 11/10, 209/200, 2299/2000] :=
  longest_drawdown_refines_spec [1, 11/10, 209/200, 2299/2000] rfl

/-- Claim C1 counterexample: on `returns = [0.1, -0.05, 0.1]` with
`annualized_factor = 3` the reported `longest_drawdown` is not `2`.  The scan
only updates the duration when a new trough appears, so it records the
peak-to-trough distance `2 - 1 = 1` and never the peak-to-recovery distance. -/
theorem scenarioB_longest_drawdown_ne_two :
    (mk_performance_history ([] : List Unit) [⟨1/10⟩, ⟨-1/20⟩, ⟨1/10⟩] 3).map
      PerformanceHistory.longest_drawdown ≠ Except.ok 2 := by
  norm_num [mk_performance_history, get_cumulative_performance, cumulative_from,
    get_longest_drawdown, drawdown_scan, drawdown_step, get_sharpe_ratio,
    get_annual_return, math_pow_raises, sample_variance, list_mean, Except.map]

/-- Claim C1 (amended): on `returns = [0.1, -0.05, 0.1]` with
`annualized_factor = 3` the reported `longest_drawdown` equals `1`. -/
theorem scenarioB_longest_drawdown_eq_one :
    (mk_performance_history ([] : List Unit) [⟨1/10⟩, ⟨-1/20⟩, ⟨1/10⟩] 3).map
      PerformanceHistory.longest_drawdown = Except.ok 1 := by
  norm_num [mk_performance_history, get_cumulative_performance, cumulative_from,
    get_longest_drawdown, drawdown_scan, drawdown_step, get_sharpe_ratio,
    get_annual_return, math_pow_raises, sample_variance, list_mean, Except.map]

/-- Claim C4 counterexample: construction on the empty series does fail, but
with the division-by-zero error from the annual-return exponent
`annualized_factor / len(performances)`, not with the specification's
`InvalidInput` validation error. -/
theorem empty_series_error_not_invalid_input :
    mk_performance_history ([] : List Unit) [] 1 = Except.error PyError.divisionByZero ∧
      PyError.divisionByZero ≠ PyError.invalidInput := by
  exact ⟨rfl, by decide⟩

/-- Claim C4 (amended): construction with an empty return series always
fails, raising the decimal division-by-zero from the annual-return exponent
`annualized_factor / 0`; no input-shape validation runs. -/
theorem empty_series_fails_division_by_zero {α : Type} (dates : List α) (af : ℚ) :
    mk_performance_history dates [] af = Except.error PyError.divisionByZero := rfl

/-- Claim C10: the `dates` argument has no influence on any computed output
field (Sharpe, Sortino, cumulative path, maximum drawdown, annual return,
longest drawdown), nor on whether construction fails. -/
theorem dates_do_not_affect_report {α : Type} (d1 d2 : List α)
    (performances : List Performance) (af : ℚ) :
    (mk_performance_history d1 performances af).map report_metrics =
      (mk_performance_history d2 performances af).map report_metrics := by
  cases hs : get_sharpe_ratio performances af with
  | error e => simp [mk_performance_history, hs]
  | ok v =>
    cases ha : get_annual_return (get_cumulative_performance performances)
        performances.length af with
    | error e => simp [mk_performance_history, hs, ha]
    | ok ar => simp [mk_performance_history, hs, ha, Except.map, report_metrics]

theorem downside_sum_nonneg (returns : List ℚ) (t : ℚ) : 0 ≤ downside_sum returns t := by
  induction returns with
  | nil => simp [downside_sum]
  | cons r rs ih =>
    have hsq := sq_nonneg (min 0 (r - t))
    have hsplit : downside_sum (r :: rs) t = (min 0 (r - t)) ^ 2 + downside_sum rs t := by
      simp [downside_sum]
    rw [hsplit]
    linarith

theorem downside_sum_eq_zero_iff (returns : List ℚ) (t : ℚ) :
    downside_sum returns t = 0 ↔ ∀ r ∈ returns, t ≤ r := by
  induction returns with
  | nil => simp [downside_sum]
  | cons r rs ih =>
    have hsplit : downside_sum (r :: rs) t = (min 0 (r - t)) ^ 2 + downside_sum rs t := by
      simp [downside_sum]
    have hsq := sq_nonneg (min 0 (r - t))
    have hrs := downside_sum_nonneg rs t
    constructor
    · intro h
      rw [hsplit] at h
      have h1 : (min 0 (r - t)) ^ 2 = 0 := by linarith
      have h2 : downside_sum rs t = 0 := by linarith
      have h3 : min 0 (r - t) = 0 := sq_eq_zero_iff.mp h1
      have h4 : t ≤ r := by
        have h5 := min_eq_left_iff.mp h3
        linarith
      intro x hx
      rcases List.mem_cons.mp hx with h5 | h5
      · exact h5 ▸ h4
      · exact (ih.mp h2) x h5
    · intro h
      rw [hsplit]
      have h4 : min 0 (r - t) = 0 := by
        have h5 := h r (List.mem_cons_self r rs)
        exact min_eq_left (by linarith)
      have h2 : downside_sum rs t = 0 :=
        ih.mpr (fun x hx => h x (List.mem_cons.mpr (Or.inr hx)))
      rw [h4, h2]
      ring

/-- Claim C2 (amended): for every series of at least two periods and positive
annualization factor, the Sortino ratio is the `Inf` sentinel exactly when no
period's return falls below `mar / annualized_factor` (with the hardcoded
`mar = 0.07`).  For single-period series the degenerate guard returns `0`
first, so the equivalence needs `N ≥ 2`. -/
theorem sortino_inf_iff_no_shortfall (performances : List Performance) (af : ℚ)
    (hlen : 2 ≤ performances.length) (haf : 0 < af) :
    (get_sortino_ratio performances (7/100) af = SortinoVal.inf ↔
      ∀ p ∈ performances, (7/100) / af ≤ p.absolute_return) := by
  have hmap : (performances.map Performance.absolute_return).length = performances.length :=
    List.length_map _ _
  have hlen1 : ¬ (performances.map Performance.absolute_return).length ≤ 1 := by omega
  have ht : 0 < (7/100) / af := by positivity
  by_cases hz : ∀ r ∈ performances.map Performance.absolute_return, r = 0
  · simp only [get_sortino_ratio]
    rw [if_pos (Or.inr hz)]
    constructor
    · intro h
      exact SortinoVal.noConfusion h
    · intro h
      exfalso
      cases performances with
      | nil => simp at hlen
      | cons p ps =>
        have h0 : p.absolute_return = 0 :=
          hz _ (List.mem_map_of_mem _ (List.mem_cons_self p ps))
        have h2 := h p (List.mem_cons_self p ps)
        rw [h0] at h2
        linarith
  · simp only [get_sortino_ratio]
    rw [if_neg (not_or.mpr ⟨hlen1, hz⟩)]
    have hlenq : (0:ℚ) < ((performances.map Performance.absolute_return).length : ℚ) := by
      rw [hmap]
      exact_mod_cast lt_of_lt_of_le (by norm_num) hlen
    have hS := downside_sum_nonneg (performances.map Performance.absolute_return) ((7:ℚ)/100 / af)
    by_cases hpos : 0 < downside_sum (performances.map Performance.absolute_return)
        ((7:ℚ)/100 / af) / ((performances.map Performance.absolute_return).length : ℚ)
    · rw [if_pos hpos]
      constructor
      · intro h
        exact SortinoVal.noConfusion h
      · intro h
        exfalso
        have hzero : downside_sum (performances.map Performance.absolute_return)
            ((7:ℚ)/100 / af) = 0 := by
          refine (downside_sum_eq_zero_iff _ _).mpr ?_
          intro r hr
          obtain ⟨p, hp, hpr⟩ := List.mem_map.mp hr
          exact hpr ▸ h p hp
        rw [hzero] at hpos
        simp at hpos
    · rw [if_neg hpos]
      constructor
      · intro _
        have hle : downside_sum (performances.map Performance.absolute_return)
            ((7:ℚ)/100 / af) / ((performances.map Performance.absolute_return).length : ℚ) = 0 := by
          have hge : 0 ≤ downside_sum (performances.map Performance.absolute_return)
              ((7:ℚ)/100 / af) / ((performances.map Performance.absolute_return).length : ℚ) :=
            div_nonneg hS hlenq.le
          exact le_antisymm (not_lt.mp hpos) hge
        have hzero : downside_sum (performances.map Performance.absolute_return)
            ((7:ℚ)/100 / af) = 0 := by
          rcases div_eq_zero_iff.mp hle with h | h
          · exact h
          · exact absurd h hlenq.ne.symm
        intro p hp
        have := (downside_sum_eq_zero_iff _ _).mp hzero p.absolute_return
          (List.mem_map_of_mem _ hp)
        linarith
      · intro _
        rfl

/-- Witness for C2 (amended) at the two-period series `[1, 1]`. -/
theorem sortino_inf_iff_no_shortfall_witness :
    get_sortino_ratio [⟨1⟩, ⟨1⟩] (7/100) 1 = SortinoVal.inf := by
  refine (sortino_inf_iff_no_shortfall [⟨1⟩, ⟨1⟩] 1 (by norm_num) (by norm_num)).mpr ?_
  intro p hp
  rcases List.mem_cons.mp hp with h | h
  · rw [h]; norm_num
  · rcases List.mem_cons.mp h with h2 | h2
    · rw [h2]; norm_num
    · cases h2

/-- Claim C2 counterexample: for the valid single-period series `[1]`
(`N = 1 ≥ 1`) no period's return falls below `mar / annualized_factor =
0.07`, yet the reported Sortino ratio is `0`, not `+Infinity`: the
degenerate `N ≤ 1` guard wins. -/
theorem sortino_single_period_not_inf :
    (mk_performance_history ([] : List Unit) [⟨1⟩] 1).map PerformanceHistory.sortino_ratio
        = Except.ok SortinoVal.zero ∧
      ∀ p ∈ [(⟨1⟩ : Performance)], (7/100) / (1:ℚ) ≤ p.absolute_return := by
  constructor
  · norm_num [mk_performance_history, get_sortino_ratio, get_sharpe_ratio,
      get_cumulative_performance, cumulative_from, get_annual_return,
      math_pow_raises, Except.map]
  · intro p hp
    rcases List.mem_cons.mp hp with h | h
    · rw [h]; norm_num
    · cases h

/-- Claim C3 (amended): construction performs no validation of returns. With
`r = [-1]` (so `r_1 ≤ -1`) and any positive annualization factor it
completes normally and produces a report whose cumulative path is `[1, 0]`,
containing a non-positive cumulative value; `math.pow(0, af) = 0` raises
nothing. -/
theorem construction_accepts_minus_one {α : Type} (dates : List α) (af : ℚ)
    (haf : 0 < af) :
    (mk_performance_history dates [⟨-1⟩] af).map PerformanceHistory.cumulative_performance
      = Except.ok [1, 0] := by
  have h1 : ¬ (af < 0) := not_lt.mpr haf.le
  norm_num [mk_performance_history, get_sharpe_ratio, get_annual_return,
    get_cumulative_performance, cumulative_from, math_pow_raises, h1, Except.map]

/-- Witness for C3 (amended) at `annualized_factor = 1`. -/
theorem construction_accepts_minus_one_witness :
    (mk_performance_history ([] : List Unit) [⟨-1⟩] 1).map
      PerformanceHistory.cumulative_performance = Except.ok [1, 0] :=
  construction_accepts_minus_one ([] : List Unit) 1 (by norm_num)

/-- Claim C3 counterexample: with `returns = [-1]` (which contains
`r_i ≤ -1`) construction does not fail at all — it completes and returns a
report. -/
theorem construction_with_minus_one_completes :
    (mk_performance_history ([] : List Unit) [⟨-1⟩] 1).isOk = true := by
  norm_num [mk_performance_history, get_sharpe_ratio, get_annual_return,
    get_cumulative_performance, cumulative_from, math_pow_raises,
    Except.isOk, Except.toBool, Except.map]

theorem get_sharpe_ratio_ok_form (performances : List Performance) (af : ℚ)
    (v : SharpeVal) (h : get_sharpe_ratio performances af = Except.ok v) :
    v = if (performances.map Performance.absolute_return).length ≤ 1 ∨
          ∀ r ∈ performances.map Performance.absolute_return, r = 0 then SharpeVal.zero
        else sharpe_ratio_spec (performances.map Performance.absolute_return) af (3/100) := by
  simp only [get_sharpe_ratio] at h
  by_cases h1 : (performances.map Performance.absolute_return).length ≤ 1 ∨
      ∀ r ∈ performances.map Performance.absolute_return, r = 0
  · rw [if_pos h1] at h
    rw [if_pos h1]
    exact (Except.ok.inj h).symm
  · rw [if_neg h1] at h
    rw [if_neg h1]
    by_cases h2 : sample_variance (performances.map Performance.absolute_return) = 0
    · rw [if_pos h2] at h
      exact Except.noConfusion h
    · rw [if_neg h2] at h
      exact (Except.ok.inj h).symm

/-- Claim C5 (amended): the constructor accepts only `dates`, `performances`
and `annualized_factor`; `risk_free_return` is not a parameter but the
hardcoded constant `0.03` (and `mar` the hardcoded `0.07`).  Whenever a
report is produced, its Sharpe ratio is the specification formula
`sqrt(af) * (mean(returns) - rf/af) / stdev(returns)` (Bessel `N-1` sample
standard deviation) instantiated with `rf = 0.03`, and the degenerate
`N ≤ 1` / all-zero guard returns `0`. -/
theorem sharpe_ratio_risk_free_hardcoded {α : Type} (dates : List α)
    (performances : List Performance) (af : ℚ) :
    (mk_performance_history dates performances af).map PerformanceHistory.sharpe_ratio =
      (mk_performance_history dates performances af).map (fun _ =>
        if (performances.map Performance.absolute_return).length ≤ 1 ∨
            ∀ r ∈ performances.map Performance.absolute_return, r = 0 then SharpeVal.zero
        else sharpe_ratio_spec (performances.map Performance.absolute_return) af (3/100)) := by
  cases hs : get_sharpe_ratio performances af with
  | error e => simp [mk_performance_history, hs, Except.map]
  | ok v =>
    cases ha : get_annual_return (get_cumulative_performance performances)
        performances.length af with
    | error e => simp [mk_performance_history, hs, ha, Except.map]
    | ok ar =>
      simp only [mk_performance_history, hs, ha, Except.map]
      exact congrArg Except.ok (get_sharpe_ratio_ok_form performances af v hs)

/-- Claim C5 counterexample: on the non-degenerate series `[0.1, 0.2]` with
`annualized_factor = 1` the reported Sharpe ratio carries excess return
`mean - 0.03/af = 3/25`, while the specification formula evaluated with a
caller-supplied `risk_free_return = 0` yields excess `3/20` over the same
variance — the caller's risk-free rate is not what the report uses. -/
theorem sharpe_ratio_ignores_caller_risk_free :
    (mk_performance_history ([] : List Unit) [⟨1/10⟩, ⟨1/5⟩] 1).map
        PerformanceHistory.sharpe_ratio = Except.ok (SharpeVal.val 1 (3/25) (1/200)) ∧
      sharpe_ratio_spec [1/10, 1/5] 1 0 ≠ SharpeVal.val 1 (3/25) (1/200) := by
  constructor
  · norm_num [mk_performance_history, get_sharpe_ratio, get_annual_return,
      get_cumulative_performance, cumulative_from, math_pow_raises,
      sample_variance, list_mean, Except.map]
  · norm_num [sharpe_ratio_spec, sample_variance, list_mean]

theorem math_pow_raises_iff (b e : ℚ) :
    math_pow_raises b e = true ↔ (b < 0 ∧ e.den ≠ 1) ∨ (b = 0 ∧ e < 0) := by
  simp [math_pow_raises]

/-- Claim C6 (amended): for a non-empty series and positive annualization
factor, the annual-return computation returns the symbolic power request
`(cum[N], af/N)` — denoting `cum[N] ** (af/N) - 1` — and it fails exactly
when `cum[N] < 0` and the exponent `af/N` is non-integral (the float
`math.pow` domain error).  In particular `cum[N] = 0` does not fail: the
result is `0 ** (af/N) - 1 = -1`. -/
theorem annual_return_error_characterization (performances : List Performance) (af : ℚ)
    (hne : performances ≠ []) (haf : 0 < af) :
    get_annual_return (get_cumulative_performance performances) performances.length af =
      if (get_cumulative_performance performances).getLastD 1 < 0 ∧
          (af / (performances.length : ℚ)).den ≠ 1 then
        Except.error PyError.powValueError
      else
        Except.ok ((get_cumulative_performance performances).getLastD 1,
          af / (performances.length : ℚ)) := by
  have hn : performances.length ≠ 0 := fun h => hne (List.length_eq_zero.mp h)
  have hnq : (0:ℚ) < (performances.length : ℚ) := by
    exact_mod_cast Nat.pos_of_ne_zero hn
  have hexp : 0 < af / (performances.length : ℚ) := div_pos haf hnq
  simp only [get_annual_return, if_neg hn]
  by_cases hc : (get_cumulative_performance performances).getLastD 1 < 0 ∧
      (af / (performances.length : ℚ)).den ≠ 1
  · have hmp : math_pow_raises ((get_cumulative_performance performances).getLastD 1)
        (af / (performances.length : ℚ)) = true :=
      (math_pow_raises_iff _ _).mpr (Or.inl hc)
    rw [if_pos hmp, if_pos hc]
  · have hmp : ¬ (math_pow_raises ((get_cumulative_performance performances).getLastD 1)
        (af / (performances.length : ℚ)) = true) := by
      intro hb
      rcases (math_pow_raises_iff _ _).mp hb with h | h
      · exact absurd h hc
      · exact absurd h.2 (not_lt.mpr hexp.le)
    rw [if_neg hmp, if_neg hc]

/-- Witness for C6 (amended) at `returns = [-1]`, `annualized_factor = 1`:
the terminal cumulative value is `0` and the computation succeeds with the
power request `(0, 1)`. -/
theorem annual_return_error_characterization_witness :
    get_annual_return (get_cumulative_performance [⟨-1⟩]) 1 1 = Except.ok (0, 1) := by
  have h := annual_return_error_characterization [⟨-1⟩] 1 (by simp) (by norm_num)
  norm_num [get_cumulative_performance, cumulative_from] at h
  norm_num [get_cumulative_performance, cumulative_from]
  exact h

/-- Claim C6 counterexample: with `returns = [-1]` the terminal cumulative
value is `0 ≤ 0`, yet the annual-return computation does not fail with any
error — it succeeds with the power request `(0, 1)`, i.e. the numeric value
`0 ** 1 - 1 = -1`. -/
theorem annual_return_zero_base_no_error :
    (get_cumulative_performance [⟨-1⟩]).getLastD 1 ≤ 0 ∧
      get_annual_return (get_cumulative_performance [⟨-1⟩]) 1 1 = Except.ok (0, 1) := by
  norm_num [get_cumulative_performance, cumulative_from, get_annual_return,
    math_pow_raises]

theorem running_max_length (cs : List ℚ) :
    ∀ m : ℚ, (running_max m cs).length = cs.length := by
  induction cs with
  | nil => intro m; rfl
  | cons c cs ih => intro m; simp [running_max, ih]

theorem max_performance_list_length (cum : List ℚ) :
    (max_performance_list cum).length = cum.length := by
  cases cum with
  | nil => rfl
  | cons c cs => simp [max_performance_list, running_max_length]

theorem drawdown_list_length (cum : List ℚ) :
    (drawdown_list cum).length = cum.length := by
  simp [drawdown_list, List.length_zipWith, max_performance_list_length]

theorem le_foldl_max (l : List ℚ) : ∀ a : ℚ, a ≤ l.foldl max a := by
  induction l with
  | nil => intro a; exact le_refl a
  | cons x xs ih =>
    intro a
    rw [List.foldl_cons]
    exact le_trans (le_max_left a x) (ih (max a x))

theorem le_foldl_max_of_mem (l : List ℚ) :
    ∀ (a x : ℚ), x ∈ l → x ≤ l.foldl max a := by
  induction l with
  | nil => intro a x hx; cases hx
  | cons y ys ih =>
    intro a x hx
    rw [List.foldl_cons]
    rcases List.mem_cons.mp hx with rfl | h
    · exact le_trans (le_max_right a x) (le_foldl_max ys (max a x))
    · exact ih (max a y) x h

theorem foldl_min_le (l : List ℚ) : ∀ a : ℚ, l.foldl min a ≤ a := by
  induction l with
  | nil => intro a; exact le_refl a
  | cons x xs ih =>
    intro a
    rw [List.foldl_cons]
    exact le_trans (ih (min a x)) (min_le_left a x)

theorem foldl_min_le_of_mem (l : List ℚ) :
    ∀ (a x : ℚ), x ∈ l → l.foldl min a ≤ x := by
  induction l with
  | nil => intro a x hx; cases hx
  | cons y ys ih =>
    intro a x hx
    rw [List.foldl_cons]
    rcases List.mem_cons.mp hx with rfl | h
    · exact le_trans (foldl_min_le ys (min a x)) (min_le_right a x)
    · exact ih (min a y) x h

theorem foldl_min_eq_or_mem (l : List ℚ) :
    ∀ a : ℚ, l.foldl min a = a ∨ l.foldl min a ∈ l := by
  induction l with
  | nil => intro a; exact Or.inl rfl
  | cons x xs ih =>
    intro a
    rw [List.foldl_cons]
    rcases ih (min a x) with h | h
    · rcases min_choice a x with h2 | h2
      · exact Or.inl (h.trans h2)
      · exact Or.inr (List.mem_cons.mpr (Or.inl (h.trans h2)))
    · exact Or.inr (List.mem_cons.mpr (Or.inr h))

theorem running_max_getD (cs : List ℚ) :
    ∀ (a : ℚ) (i : ℕ), i < cs.length →
      (running_max a cs).getD i 0 = (cs.take (i + 1)).foldl max a := by
  induction cs with
  | nil => intro a i hi; cases hi
  | cons x xs ih =>
    intro a i hi
    cases i with
    | zero => simp [running_max, List.getD_cons_zero]
    | succ j =>
      have hj : j < xs.length := by simpa using hi
      have h := ih (max a x) j hj
      simpa [running_max, List.getD_cons_succ, List.take_succ_cons,
        List.foldl_cons] using h

theorem max_performance_list_getD (cum : List ℚ) (i : ℕ) (h : i < cum.length) :
    (max_performance_list cum).getD i 0 = ((cum.take (i + 1)).max?).getD 0 := by
  cases cum with
  | nil => cases h
  | cons c cs =>
    cases i with
    | zero => rfl
    | succ j =>
      have hj : j < cs.length := by simpa using h
      have hr := running_max_getD cs c j hj
      simp only [max_performance_list, List.getD_cons_succ, hr,
        List.take_succ_cons, List.max?_cons', Option.getD_some]

theorem mem_le_max_getD (l : List ℚ) (x : ℚ) (h : x ∈ l) : x ≤ (l.max?).getD 0 := by
  cases l with
  | nil => cases h
  | cons d t =>
    rw [List.max?_cons', Option.getD_some]
    rcases List.mem_cons.mp h with h2 | h2
    · exact h2 ▸ le_foldl_max t d
    · exact le_foldl_max_of_mem t d x h2

theorem peak_pos (rest : List ℚ) (i : ℕ) :
    0 < (((1 :: rest : List ℚ).take (i + 1)).max?).getD 0 := by
  rw [List.take_succ_cons, List.max?_cons', Option.getD_some]
  have h := le_foldl_max (rest.take i) 1
  linarith

theorem getD_mem_take (cum : List ℚ) (i : ℕ) (h : i < cum.length) :
    cum.getD i 0 ∈ cum.take (i + 1) := by
  have hlen : i < (cum.take (i + 1)).length := by
    rw [List.length_take]
    omega
  have h2 : cum.getD i 0 = (cum.take (i + 1)).getD i 0 := by
    rw [List.getD_eq_getElem _ _ h, List.getD_eq_getElem _ _ hlen]
    exact (List.getElem_take cum).symm
  rw [h2, List.getD_eq_getElem _ _ hlen]
  exact List.getElem_mem hlen

theorem drawdown_list_getD (cum : List ℚ) (i : ℕ) (h : i < cum.length) :
    (drawdown_list cum).getD i 0 = drawdown_at cum i := by
  have hd : i < (drawdown_list cum).length := by
    rw [drawdown_list_length]; exact h
  have hm : i < (max_performance_list cum).length := by
    rw [max_performance_list_length]; exact h
  unfold drawdown_at
  rw [List.getD_eq_getElem _ _ hd]
  simp only [drawdown_list, List.getElem_zipWith]
  rw [← List.getD_eq_getElem cum 0 h, ← List.getD_eq_getElem (max_performance_list cum) 0 hm]
  rw [max_performance_list_getD cum i h]

theorem get_maximum_drawdown_cons (cum : List ℚ) (d : ℚ) (ds : List ℚ)
    (h : drawdown_list cum = d :: ds) : get_maximum_drawdown cum = ds.foldl min d := by
  unfold get_maximum_drawdown
  rw [h]

theorem gmd_le_drawdown_at (rest : List ℚ) (i : ℕ)
    (h : i < (1 :: rest : List ℚ).length) :
    get_maximum_drawdown (1 :: rest) ≤ drawdown_at (1 :: rest) i := by
  cases hdd : drawdown_list (1 :: rest : List ℚ) with
  | nil =>
    exfalso
    have hlen := drawdown_list_length (1 :: rest : List ℚ)
    rw [hdd] at hlen
    simp at hlen
  | cons d ds =>
    rw [← drawdown_list_getD _ i h, hdd, get_maximum_drawdown_cons _ d ds hdd]
    cases i with
    | zero => simpa [List.getD_cons_zero] using foldl_min_le ds d
    | succ j =>
      have hj : j < ds.length := by
        have hlen := drawdown_list_length (1 :: rest : List ℚ)
        rw [hdd] at hlen
        simp only [List.length_cons] at hlen h
        omega
      have hmem : ds.getD j 0 ∈ ds := by
        rw [List.getD_eq_getElem _ _ hj]
        exact List.getElem_mem hj
      simpa [List.getD_cons_succ] using foldl_min_le_of_mem ds d _ hmem

theorem gmd_mem_drawdown (rest : List ℚ) :
    ∃ i, i < (1 :: rest : List ℚ).length ∧
      get_maximum_drawdown (1 :: rest) = drawdown_at (1 :: rest) i := by
  cases hdd : drawdown_list (1 :: rest : List ℚ) with
  | nil =>
    exfalso
    have hlen := drawdown_list_length (1 :: rest : List ℚ)
    rw [hdd] at hlen
    simp at hlen
  | cons d ds =>
    have hgmd := get_maximum_drawdown_cons _ d ds hdd
    have hlen := drawdown_list_length (1 :: rest : List ℚ)
    rw [hdd] at hlen
    simp only [List.length_cons] at hlen
    rcases foldl_min_eq_or_mem ds d with h | h
    · refine ⟨0, by simp, ?_⟩
      rw [hgmd, h, ← drawdown_list_getD _ 0 (by simp), hdd]
      rfl
    · obtain ⟨j, hj, hel⟩ := List.mem_iff_getElem.mp h
      refine ⟨j + 1, by simp only [List.length_cons]; omega, ?_⟩
      rw [hgmd, ← drawdown_list_getD _ (j + 1) (by simp only [List.length_cons]; omega), hdd]
      rw [List.getD_cons_succ, List.getD_eq_getElem _ _ hj]
      exact hel.symm

theorem drawdown_at_nonpos (rest : List ℚ) (i : ℕ)
    (h : i < (1 :: rest : List ℚ).length) :
    drawdown_at (1 :: rest) i ≤ 0 := by
  have hp := peak_pos rest i
  have hle : (1 :: rest : List ℚ).getD i 0 ≤ (((1 :: rest : List ℚ).take (i + 1)).max?).getD 0 :=
    mem_le_max_getD _ _ (getD_mem_take _ i h)
  unfold drawdown_at
  exact div_nonpos_iff.mpr (Or.inr ⟨by linarith, hp.le⟩)

theorem drawdown_at_zero (rest : List ℚ) : drawdown_at (1 :: rest) 0 = 0 := by
  simp [drawdown_at, List.take_succ_cons, List.max?_cons', List.getD_cons_zero]

theorem chain_take_foldl_max (cs : List ℚ) :
    ∀ (c : ℚ) (j : ℕ), List.Chain' (fun a b => a ≤ b) (c :: cs) → j < cs.length + 1 →
      (cs.take j).foldl max c = (c :: cs).getD j 0 := by
  induction cs with
  | nil =>
    intro c j _ hj
    simp only [List.length_nil] at hj
    have hz : j = 0 := by omega
    subst hz
    rfl
  | cons x xs ih =>
    intro c j hch hj
    rcases List.chain'_cons.mp hch with ⟨hcx, hch2⟩
    cases j with
    | zero => rfl
    | succ k =>
      have hk : k < xs.length + 1 := by simpa using hj
      have h := ih x k hch2 hk
      rw [List.take_succ_cons, List.foldl_cons, max_eq_right hcx, h]
      simp [List.getD_cons_succ]

theorem drawdown_at_eq_zero_of_chain (rest : List ℚ) (i : ℕ)
    (hch : List.Chain' (fun a b => a ≤ b) (1 :: rest : List ℚ))
    (h : i < (1 :: rest : List ℚ).length) :
    drawdown_at (1 :: rest) i = 0 := by
  unfold drawdown_at
  rw [List.take_succ_cons, List.max?_cons', Option.getD_some]
  have hj : i < rest.length + 1 := by simpa using h
  rw [chain_take_foldl_max rest 1 i hch hj]
  simp

/-- Claim C8: for every cumulative value path produced by the valuator, the
maximum drawdown is the minimum over all indices `i` of
`(cum[i] - peak[i]) / peak[i]` with `peak[i] = max(cum[0..i])` (it is a lower
bound of all drawdowns and is attained at some index), it is always `≤ 0`,
and it is exactly `0` whenever the path is non-decreasing. -/
theorem maximum_drawdown_spec_properties (performances : List Performance) :
    (∀ i, i < (get_cumulative_performance performances).length →
        get_maximum_drawdown (get_cumulative_performance performances) ≤
          drawdown_at (get_cumulative_performance performances) i) ∧
    (∃ i, i < (get_cumulative_performance performances).length ∧
        get_maximum_drawdown (get_cumulative_performance performances) =
          drawdown_at (get_cumulative_performance performances) i) ∧
    get_maximum_drawdown (get_cumulative_performance performances) ≤ 0 ∧
    (List.Chain' (fun a b => a ≤ b) (get_cumulative_performance performances) →
      get_maximum_drawdown (get_cumulative_performance performances) = 0) := by
  refine ⟨fun i hi => gmd_le_drawdown_at _ i hi, gmd_mem_drawdown _, ?_, ?_⟩
  · have h0 := gmd_le_drawdown_at (cumulative_from 1 performances) 0 (by simp)
    rw [drawdown_at_zero] at h0
    exact h0
  · intro hch
    obtain ⟨i, hi, heq⟩ := gmd_mem_drawdown (cumulative_from 1 performances)
    rw [show get_maximum_drawdown (get_cumulative_performance performances) =
      drawdown_at (get_cumulative_performance performances) i from heq]
    exact drawdown_at_eq_zero_of_chain _ i hch hi

/-- Witness for C8: a strict-drawdown path and a non-decreasing path. -/
theorem maximum_drawdown_spec_properties_witness :
    get_maximum_drawdown (get_cumulative_performance [⟨1/10⟩, ⟨-1/20⟩, ⟨1/10⟩]) ≤
        drawdown_at (get_cumulative_performance [⟨1/10⟩, ⟨-1/20⟩, ⟨1/10⟩]) 2 ∧
      get_maximum_drawdown (get_cumulative_performance [⟨1/10⟩, ⟨1/10⟩]) = 0 := by
  constructor
  · exact (maximum_drawdown_spec_properties [⟨1/10⟩, ⟨-1/20⟩, ⟨1/10⟩]).1 2
      (by norm_num [get_cumulative_performance, cumulative_from])
  · refine (maximum_drawdown_spec_properties [⟨1/10⟩, ⟨1/10⟩]).2.2.2 ?_
    norm_num [get_cumulative_performance, cumulative_from, List.chain'_cons]

end Plutus
